import Mathlib

/-!
Verification of the btcli command interpreter and result-rendering pipeline.

The repository's `src/` holds the tab-completion code (`Completer`) and the
unit tests of the interpreter pipeline (`TestRowRange`, `TestReadOption`,
`TestDoExecutor`, `TestPrintRows`).  The bodies of the pipeline functions
(`rowRange`, `readOption`, `Executor.Do`, `printRow` and the value decoder)
are not in `src/`, so they are modelled from the spec (sections 4.1–4.4),
with every behavior that the unit tests pin down reproduced exactly.
Machine integers are modelled as `Nat`; byte strings as `List Nat`;
IEEE-754 doubles are decoded exactly as a sign and a dyadic magnitude
`num / 2 ^ d2`, which is the exact value of the double.
-/

namespace Btcli

/-! ### Value Decoder (spec section 4.4) -/

/-- Big-endian read of a byte list as an unsigned 64-bit integer
(`binary.BigEndian.Uint64`): fold accumulating `acc * 256 + byte`. -/
def beUint64 (bs : List Nat) : Nat :=
  bs.foldl (fun acc b => acc * 256 + b) 0

/-- The exact value of an IEEE-754 double: not-a-number, a signed infinity,
or a sign together with an exact dyadic magnitude `num / 2 ^ d2`. -/
inductive FloatVal where
  | nan : FloatVal
  | inf : Bool → FloatVal
  | finite : Bool → Nat → Nat → FloatVal
deriving DecidableEq

/-- Modelled from the spec: exact decoding of a 64-bit big-endian bit
pattern as an IEEE-754 double-precision float (sign bit, 11 exponent bits,
52 mantissa bits; exponent 2047 encodes infinities and NaNs, exponent 0
encodes subnormals).  A finite double with biased exponent `e` and
mantissa `m` has exact magnitude `(2 ^ 52 + m) / 2 ^ (1075 - e)`
(subnormals: `m / 2 ^ 1074`), represented here as a dyadic pair. -/
def floatOfBits (n : Nat) : FloatVal :=
  let s : Bool := decide (2 ^ 63 ≤ n % 2 ^ 64)
  let e : Nat := n / 2 ^ 52 % 2 ^ 11
  let m : Nat := n % 2 ^ 52
  if e = 2047 then
    if m = 0 then FloatVal.inf s else FloatVal.nan
  else if e = 0 then
    FloatVal.finite s m 1074
  else if e ≤ 1075 then
    FloatVal.finite s (2 ^ 52 + m) (1075 - e)
  else
    FloatVal.finite s ((2 ^ 52 + m) * 2 ^ (e - 1075)) 0

/-- Round the exact fraction `a / b` to the nearest integer, ties to even
(the rounding used by Go's fixed-precision float formatting). -/
def roundHalfEven (a b : Nat) : Nat :=
  let q := a / b
  let r := a % b
  if 2 * r < b then q
  else if b < 2 * r then q + 1
  else if q % 2 = 0 then q else q + 1

/-- The six decimal digits of `n % 1000000`, zero-padded to width six. -/
def frac6 (n : Nat) : String :=
  String.mk [Nat.digitChar (n / 100000 % 10), Nat.digitChar (n / 10000 % 10),
    Nat.digitChar (n / 1000 % 10), Nat.digitChar (n / 100 % 10),
    Nat.digitChar (n / 10 % 10), Nat.digitChar (n % 10)]

/-- Modelled from the spec: `%.6f`-equivalent rendering of a double
(section 4.4): fixed six digits after the decimal point for finite values
(Go prints `NaN`, `+Inf`, `-Inf` for the special values). -/
def fmtFloat6 : FloatVal → String
  | FloatVal.nan => "NaN"
  | FloatVal.inf s => if s then "-Inf" else "+Inf"
  | FloatVal.finite s num d2 =>
    let n6 := roundHalfEven (num * 1000000) (2 ^ d2)
    (if s then "-" else "") ++ Nat.repr (n6 / 1000000) ++ "." ++ frac6 (n6 % 1000000)

/-- Render raw bytes as a double-quoted string literal of the bytes
interpreted as text (spec section 4.4, non-8-byte case). -/
def quoteBytes (bs : List Nat) : String :=
  "\"" ++ String.mk (bs.map Char.ofNat) ++ "\""

/-- Modelled from the spec: the value decoder (`getValue`, not under
`src/`; section 4.4 and the fixtures of `TestPrintRows`).  A non-8-byte
value is quoted text; an 8-byte value whose big-endian integer is a small
positive integer (high 7 bytes zero, equivalently the integer is below
256) renders as a bare decimal; otherwise the same 8 bytes reinterpret as
a big-endian IEEE-754 double rendered `%.6f`. -/
def decodeValue (v : List Nat) : String :=
  if v.length = 8 then
    if beUint64 v < 256 then Nat.repr (beUint64 v)
    else fmtFloat6 (floatOfBits (beUint64 v))
  else quoteBytes v

/-! ### Data model (spec section 3) and Row Formatter (spec section 4.3) -/

/-- A cell write timestamp, broken into calendar fields.  The zero value
matches Go's zero `time.Time`: January 1 of year 1, midnight. -/
structure Timestamp where
  year : Nat := 1
  month : Nat := 1
  day : Nat := 1
  hour : Nat := 0
  minute : Nat := 0
  second : Nat := 0
  micro : Nat := 0
deriving DecidableEq

/-- A cell: column family, fully-qualified column name, raw byte value,
and write timestamp (spec section 3). -/
structure Column where
  family : String
  qualifier : String
  value : List Nat
  version : Timestamp := {}
deriving DecidableEq

/-- A row: key plus the columns in store order (spec section 3). -/
structure Row where
  key : String
  columns : List Column
deriving DecidableEq

/-- Zero-pad a decimal rendering of `n` on the left to width `w`. -/
def padZeros (w n : Nat) : String :=
  String.mk (List.replicate (w - (Nat.repr n).length) '0') ++ Nat.repr n

/-- Pad `s` with spaces on the right to width `w` (Go `%-40s`-style). -/
def padRight (s : String) (w : Nat) : String :=
  s ++ String.mk (List.replicate (w - s.length) ' ')

/-- Modelled from the spec: version timestamps render with Go layout
`2006/01/02-15:04:05.000000` (section 4.3). -/
def fmtTime (t : Timestamp) : String :=
  padZeros 4 t.year ++ "/" ++ padZeros 2 t.month ++ "/" ++ padZeros 2 t.day ++ "-" ++
    padZeros 2 t.hour ++ ":" ++ padZeros 2 t.minute ++ ":" ++ padZeros 2 t.second ++ "." ++
    padZeros 6 t.micro

/-- One column line pair: two spaces, the qualifier padded to field width
40, a space, `@`, a space, the formatted version; then the decoded value
on the next line indented by four spaces. -/
def printColumn (c : Column) : String :=
  "  " ++ padRight c.qualifier 40 ++ " @ " ++ fmtTime c.version ++ "\n" ++
    "    " ++ decodeValue c.value ++ "\n"

/-- Modelled from the spec: the Row Formatter (`printRow`, not under
`src/`; section 4.3 and the fixtures of `TestPrintRows`): a separator of
exactly 40 dashes, the row key, then each column via `printColumn`. -/
def printRow (r : Row) : String :=
  String.mk (List.replicate 40 '-') ++ "\n" ++ r.key ++ "\n" ++
    String.join (r.columns.map printColumn)

/-! ### Query Option Builder (spec section 4.2) -/

/-- A row range as handed to the store: inclusive start key and exclusive
limit key; an empty limit means unbounded (`bigtable.RowRange`). -/
structure RowRange where
  start : String
  limit : String
deriving DecidableEq

/-- Increment the last character of a key, keeping the other characters
(the spec's "prefix-with-last-byte-incremented"). -/
def succLast : List Char → List Char
  | [] => []
  | [c] => [Char.ofNat (c.toNat + 1)]
  | c :: rest => c :: succLast rest

/-- The exclusive upper bound of a prefix scan: the prefix with its last
byte incremented (spec section 4.2). -/
def pfxSuccessor (s : String) : String :=
  String.mk (succLast s.data)

/-- Lexicographic strict order on keys, comparing character codes
(byte-string comparison of the store's key space). -/
def chLt : List Char → List Char → Bool
  | [], [] => false
  | [], _ :: _ => true
  | _ :: _, [] => false
  | a :: as, b :: bs =>
    if a.toNat < b.toNat then true
    else if b.toNat < a.toNat then false
    else chLt as bs

/-- Lexicographic order on keys, comparing character codes. -/
def chLe : List Char → List Char → Bool
  | [], _ => true
  | _ :: _, [] => false
  | a :: as, b :: bs =>
    if a.toNat < b.toNat then true
    else if b.toNat < a.toNat then false
    else chLe as bs

/-- Whether the first character list is a prefix of the second, comparing
character codes. -/
def isPfxOf : List Char → List Char → Bool
  | [], _ => true
  | _ :: _, [] => false
  | a :: as, b :: bs => if a.toNat = b.toNat then isPfxOf as bs else false

/-- First value bound to `k` in an argument list (`args[k]` lookup). -/
def lookupArg (k : String) (args : List (String × String)) : Option String :=
  (args.find? (fun p => p.1 == k)).map (fun p => p.2)

/-- Modelled from the spec: the range builder (`rowRange`, not under
`src/`).  Its unit test `TestRowRange` pins the behavior: a `prefix`
argument gives the prefix scan range (`PrefixRange("1")` equals
`NewRange("1", "2")`), and any other argument mapping — including one
with `start` and `end` — gives the unbounded range `NewRange("", "")`. -/
def rowRange (args : List (String × String)) : RowRange :=
  match lookupArg "prefix" args with
  | some p => { start := p, limit := pfxSuccessor p }
  | none => { start := "", limit := "" }

/-- A row filter passed inside a `RowFilter` read option
(`bigtable.RowKeyFilter` / `bigtable.LatestNFilter`). -/
inductive Filter where
  | rowKey : String → Filter
  | latestN : Nat → Filter
deriving DecidableEq

/-- A read modifier for a multi-row fetch (`bigtable.ReadOption`). -/
inductive ReadOption where
  | limitRows : Nat → ReadOption
  | rowFilter : Filter → ReadOption
deriving DecidableEq

/-- Parse a decimal string as a non-negative integer; any non-digit
character (including a sign) fails. -/
def parseNatDigits : List Char → Nat → Option Nat
  | [], acc => some acc
  | c :: rest, acc =>
    if c.isDigit then parseNatDigits rest (acc * 10 + (c.toNat - 48)) else none

/-- Parse an argument value as a non-negative integer (spec section 4.2:
`count` "must parse as a non-negative integer"). -/
def parseNonNegInt (s : String) : Option Nat :=
  match s.data with
  | [] => none
  | c :: rest => parseNatDigits (c :: rest) 0

/-- The `count` contribution: a `LimitRows` modifier, or a parse error. -/
def countOpt (args : List (String × String)) : Except String (List ReadOption) :=
  match lookupArg "count" args with
  | none => Except.ok []
  | some v =>
    match parseNonNegInt v with
    | none => Except.error ("invalid count: " ++ v)
    | some n => Except.ok [ReadOption.limitRows n]

/-- The `regex` contribution: a row-key filter (spec section 4.2). -/
def regexOpt (args : List (String × String)) : Except String (List ReadOption) :=
  match lookupArg "regex" args with
  | none => Except.ok []
  | some v => Except.ok [ReadOption.rowFilter (Filter.rowKey v)]

/-- The `version` contribution: a latest-N-versions filter; the spec
(section 3 invariants) requires a positive integer or the command fails
validation. -/
def versionOpt (args : List (String × String)) : Except String (List ReadOption) :=
  match lookupArg "version" args with
  | none => Except.ok []
  | some v =>
    match parseNonNegInt v with
    | none => Except.error ("invalid version: " ++ v)
    | some n => if n = 0 then Except.error ("invalid version: " ++ v) else
        Except.ok [ReadOption.rowFilter (Filter.latestN n)]

/-- Modelled from the spec: the read-modifier builder (`readOption`, not
under `src/`; section 4.2 and `TestReadOption`): the `count`, `regex` and
`version` contributions combined, failing if any of them fails. -/
def readOption (args : List (String × String)) : Except String (List ReadOption) :=
  match countOpt args with
  | Except.error e => Except.error e
  | Except.ok c =>
    match regexOpt args with
    | Except.error e => Except.error e
    | Except.ok r =>
      match versionOpt args with
      | Except.error e => Except.error e
      | Except.ok v => Except.ok (c ++ r ++ v)

/-! ### Command Interpreter (spec section 4.1) -/

/-- A result set returned by the store (`domain.Bigtable`): the table
name and the rows in store order. -/
structure BigtableResult where
  table : String
  rows : List Row
deriving DecidableEq

/-- The Row Store capability (spec section 6): table listing, single-row
fetch, and multi-row fetch, each fallible. -/
structure Store where
  tables : Except String (List String)
  getRow : String → String → Except String BigtableResult
  getRows : String → RowRange → List ReadOption → Except String BigtableResult

/-- One store invocation issued by the interpreter, recorded as data. -/
inductive StoreCall where
  | listTables : StoreCall
  | getRow : String → String → StoreCall
  | getRows : String → RowRange → List ReadOption → StoreCall
deriving DecidableEq

/-- What one interpreted line produced: text written to the standard
sink, text written to the error sink, the store calls issued, and
whether termination was requested. -/
structure ExecResult where
  out : String
  err : String
  calls : List StoreCall
  exit : Bool
deriving DecidableEq

/-- Split on spaces keeping no empty tokens (whitespace tokenization of
spec section 4.1); `acc` holds the current token reversed. -/
def fieldsAux : List Char → List Char → List String
  | [], [] => []
  | [], acc => [String.mk acc.reverse]
  | c :: rest, acc =>
    if c = ' ' then
      match acc with
      | [] => fieldsAux rest []
      | _ :: _ => String.mk acc.reverse :: fieldsAux rest []
    else fieldsAux rest (c :: acc)

/-- Tokenize one input line on whitespace. -/
def tokenize (s : String) : List String :=
  fieldsAux s.data []

/-- Split a token at its first `=`: `some (key, value)`, or `none` when
the token has no `=` (such tokens are ignored, spec section 4.2). -/
def breakEq : List Char → Option (List Char × List Char)
  | [] => none
  | c :: rest =>
    if c = '=' then some ([], rest)
    else
      match breakEq rest with
      | none => none
      | some (k, v) => some (c :: k, v)

/-- Collect `key=value` tokens into an argument list, ignoring tokens
without `=` (spec section 4.2). -/
def parseArgs (toks : List String) : List (String × String) :=
  toks.filterMap (fun t =>
    (breakEq t.data).map (fun kv => (String.mk kv.1, String.mk kv.2)))

/-- Modelled from the spec: the `ls` handler (section 4.1): list tables,
one per line; a store error goes to the error sink. -/
def doLs (store : Store) : ExecResult :=
  let res := store.tables
  { out := match res with
      | Except.ok ts => String.join (ts.map (fun t => t ++ "\n"))
      | Except.error _ => ""
    err := match res with
      | Except.ok _ => ""
      | Except.error e => e ++ "\n"
    calls := [StoreCall.listTables]
    exit := false }

/-- Modelled from the spec: the `lookup` handler (section 4.1): fetch one
row and render it; zero rows render nothing and raise no error. -/
def doLookup (store : Store) (table key : String) : ExecResult :=
  let res := store.getRow table key
  { out := match res with
      | Except.ok bt => String.join (bt.rows.map printRow)
      | Except.error _ => ""
    err := match res with
      | Except.ok _ => ""
      | Except.error e => e ++ "\n"
    calls := [StoreCall.getRow table key]
    exit := false }

/-- Modelled from the spec: the `read` handler (section 4.1): build the
range and the modifiers from the `key=value` tokens; on a builder error
report it and issue no store call; otherwise issue exactly one multi-row
fetch and render every returned row. -/
def doRead (store : Store) (table : String) (argToks : List String) : ExecResult :=
  let args := parseArgs argToks
  let rr := rowRange args
  match readOption args with
  | Except.error e => { out := "", err := e ++ "\n", calls := [], exit := false }
  | Except.ok opts =>
    let res := store.getRows table rr opts
    { out := match res with
        | Except.ok bt => String.join (bt.rows.map printRow)
        | Except.error _ => ""
      err := match res with
        | Except.ok _ => ""
        | Except.error e => e ++ "\n"
      calls := [StoreCall.getRows table rr opts]
      exit := false }

/-- Modelled from the spec: the Command Interpreter (`Executor.Do`, not
under `src/`; section 4.1 and `TestDoExecutor`): tokenize the line on
whitespace, dispatch on the first token; `exit`/`quit` request
termination; an unrecognized first token is silently ignored. -/
def execLine (store : Store) (line : String) : ExecResult :=
  match tokenize line with
  | "ls" :: _ => doLs store
  | "lookup" :: table :: key :: _ => doLookup store table key
  | "read" :: table :: rest => doRead store table rest
  | "exit" :: _ => { out := "", err := "", calls := [], exit := true }
  | "quit" :: _ => { out := "", err := "", calls := [], exit := true }
  | _ => { out := "", err := "", calls := [], exit := false }

/-- A store stub whose every fetch succeeds with zero rows, used to
instantiate store-generic theorems. -/
def emptyStore : Store :=
  { tables := Except.ok []
    getRow := fun _ _ => Except.ok { table := "t", rows := [] }
    getRows := fun _ _ _ => Except.ok { table := "t", rows := [] } }

/-! ### Completer (src/api/interfaces/completer.go) -/

/-- A completion suggestion (`prompt.Suggest`). -/
structure Suggest where
  text : String
  description : String
deriving DecidableEq

/-- The static command suggestion list of `completer.go`. -/
def commands : List Suggest :=
  [{ text := "ls", description := "List tables" },
   { text := "lookup", description := "Read from a single row" },
   { text := "read", description := "Read from a multi rows" },
   { text := "exit", description := "Exit this prompt" },
   { text := "quit", description := "Exit this prompt" }]

/-- The static table suggestion list of `completer.go`. -/
def tablesList : List Suggest :=
  [{ text := "users", description := "users" },
   { text := "articles", description := "articles" }]

/-- `getTableSuggestions` of `completer.go`. -/
def getTableSuggestions : List Suggest :=
  tablesList

/-- `prompt.FilterHasPrefix`: keep the suggestions whose text starts with
the typed fragment, case-insensitively when `ignoreCase` is set. -/
def filterHasPfx (suggestions : List Suggest) (sub : String) (ignoreCase : Bool) : List Suggest :=
  let key := if ignoreCase then sub.data.map Char.toLower else sub.data
  suggestions.filter (fun s =>
    isPfxOf key (if ignoreCase then s.text.data.map Char.toLower else s.text.data))

/-- Go's `strings.Split(s, " ")`: split on every space, keeping empty
fragments; `acc` holds the current fragment reversed. -/
def splitSpaces : List Char → List Char → List String
  | [], acc => [String.mk acc.reverse]
  | c :: rest, acc =>
    if c = ' ' then String.mk acc.reverse :: splitSpaces rest []
    else splitSpaces rest (c :: acc)

/-- `completeWithArguments` of `completer.go`: with at most one token,
filter the command list by it; with two or more, filter the table list by
the second token when the first is `lookup` or `read`. -/
def completeWithArguments (args : List String) : List Suggest :=
  match args with
  | [] => []
  | [first] => filterHasPfx commands first true
  | first :: second :: _ =>
    if first = "lookup" ∨ first = "read" then filterHasPfx getTableSuggestions second true
    else []

/-- `Completer` of `completer.go`: an empty text before the cursor gives
no suggestions; otherwise split on spaces and complete. -/
def Completer (textBeforeCursor : String) : List Suggest :=
  if textBeforeCursor = "" then []
  else completeWithArguments (splitSpaces textBeforeCursor.data [])

/-! ### Range semantics and helper lemmas -/

/-- Modelled from the spec: which keys a row range matches (section 4.2):
inclusive start, exclusive limit, and an empty limit matches every key. -/
def RowRange.containsKey (r : RowRange) (k : String) : Bool :=
  chLe r.start.data k.data && (r.limit.data.isEmpty || chLt k.data r.limit.data)

theorem toNat_ofNat_of_valid (n : Nat) (h : n.isValidChar) : (Char.ofNat n).toNat = n := by
  simp [Char.ofNat, Char.ofNatAux, h, Char.toNat, UInt32.toNat, BitVec.toNat_ofNatLt]

theorem chLt_nil (t : List Char) : chLt t [] = false := by
  cases t <;> rfl

theorem succLast_cons_isEmpty (c : Char) (r : List Char) : (succLast (c :: r)).isEmpty = false := by
  cases r <;> rfl

/-- Key characterization of a prefix scan: a key lies in the interval
from the prefix (inclusive) to its last-byte-incremented successor
(exclusive) exactly when the prefix is a prefix of the key. -/
theorem chRange_eq_isPfx : ∀ p k : List Char,
    (∀ c, p.getLast? = some c → Nat.isValidChar (c.toNat + 1)) → p ≠ [] →
    (chLe p k && chLt k (succLast p)) = isPfxOf p k := by
  intro p
  induction p with
  | nil => intro k _ hne; exact absurd rfl hne
  | cons c rest ih =>
    intro k hv _
    cases rest with
    | nil =>
      have hvc : Nat.isValidChar (c.toNat + 1) := hv c rfl
      have hc : (Char.ofNat (c.toNat + 1)).toNat = c.toNat + 1 := toNat_ofNat_of_valid _ hvc
      cases k with
      | nil => simp [chLe, isPfxOf]
      | cons d t =>
        simp only [succLast, chLe, chLt, isPfxOf, chLt_nil, hc]
        rcases Nat.lt_trichotomy c.toNat d.toNat with h | h | h
        · simp [h, Nat.lt_asymm h, Nat.ne_of_lt h, Nat.not_lt.mpr (Nat.succ_le_of_lt h)]
        · simp [h, Nat.lt_irrefl, Nat.lt_succ_self]
        · simp [h, Nat.lt_asymm h, (Nat.ne_of_lt h).symm, Nat.lt_succ_of_lt h]
    | cons c2 r2 =>
      have hv2 : ∀ x, (c2 :: r2 : List Char).getLast? = some x → Nat.isValidChar (x.toNat + 1) := by
        intro x hx
        exact hv x (by rw [List.getLast?_cons_cons]; exact hx)
      cases k with
      | nil => simp [chLe, isPfxOf]
      | cons d t =>
        have hrec := ih t hv2 (by simp)
        simp only [succLast, chLe, chLt, isPfxOf]
        rcases Nat.lt_trichotomy c.toNat d.toNat with h | h | h
        · simp [h, Nat.lt_asymm h, Nat.ne_of_lt h]
        · simp [h, Nat.lt_irrefl, hrec]
        · simp [h, Nat.lt_asymm h, (Nat.ne_of_lt h).symm]

/-- An 8-byte value that is not the small-integer pattern decodes through
the IEEE-754 float path. -/
theorem decodeValue_float (v : List Nat) (hlen : v.length = 8) (hge : 256 ≤ beUint64 v) :
    decodeValue v = fmtFloat6 (floatOfBits (beUint64 v)) := by
  unfold decodeValue
  rw [if_pos hlen, if_neg (Nat.not_lt.mpr hge)]

theorem digitChar_mod_isDigit (x : Nat) : (Nat.digitChar (x % 10)).isDigit = true := by
  have h10 : ∀ m, m < 10 → (Nat.digitChar m).isDigit = true := by decide
  exact h10 _ (Nat.mod_lt _ (by decide))

/-! ### The claims -/

/-- C1: for every 8-byte value whose high 7 bytes are zero, the Value
Decoder renders the decimal string of the low byte's unsigned value; in
particular `00 00 00 00 00 00 00 01` decodes to `"1"` (the witness). -/
theorem btcli_C1 (b : Nat) (h : b < 256) :
    decodeValue [0, 0, 0, 0, 0, 0, 0, b] = Nat.repr b := by
  have hb : beUint64 [0, 0, 0, 0, 0, 0, 0, b] = b := by
    simp [beUint64]
  simp [decodeValue, hb, h]

theorem btcli_C1_witness : decodeValue [0, 0, 0, 0, 0, 0, 0, 1] = Nat.repr 1 :=
  btcli_C1 1 (by decide)

/-- C2: every 8-byte value that is not the integer pattern (high 7 bytes
zero, i.e. big-endian value below 256) decodes through the big-endian
IEEE-754 double reinterpretation rendered `%.6f`; whenever the exponent
field is not 2047 (a finite double) the output has exactly 6 digits after
the decimal point; and `40 00 00 00 00 00 00 00` decodes to `"2.000000"`. -/
theorem btcli_C2 :
    (∀ b0 b1 b2 b3 b4 b5 b6 b7 : Nat, b0 < 256 → b1 < 256 → b2 < 256 → b3 < 256 →
      b4 < 256 → b5 < 256 → b6 < 256 → b7 < 256 →
      ¬(b0 = 0 ∧ b1 = 0 ∧ b2 = 0 ∧ b3 = 0 ∧ b4 = 0 ∧ b5 = 0 ∧ b6 = 0) →
      decodeValue [b0, b1, b2, b3, b4, b5, b6, b7] =
        fmtFloat6 (floatOfBits (beUint64 [b0, b1, b2, b3, b4, b5, b6, b7])) ∧
      (beUint64 [b0, b1, b2, b3, b4, b5, b6, b7] / 2 ^ 52 % 2 ^ 11 ≠ 2047 →
        ∃ intPart fracPart, decodeValue [b0, b1, b2, b3, b4, b5, b6, b7] =
          intPart ++ "." ++ fracPart ∧ fracPart.length = 6 ∧
          fracPart.data.all Char.isDigit = true)) ∧
    decodeValue [0x40, 0, 0, 0, 0, 0, 0, 0] = "2.000000" := by
  constructor
  · intro b0 b1 b2 b3 b4 b5 b6 b7 h0 h1 h2 h3 h4 h5 h6 h7 hni
    have hn : 256 ≤ beUint64 [b0, b1, b2, b3, b4, b5, b6, b7] := by
      simp only [beUint64, List.foldl]
      omega
    have hdec := decodeValue_float [b0, b1, b2, b3, b4, b5, b6, b7] (by simp) hn
    refine ⟨hdec, fun he => ?_⟩
    obtain ⟨s, num, d2, hfin⟩ :
        ∃ s num d2, floatOfBits (beUint64 [b0, b1, b2, b3, b4, b5, b6, b7]) =
          FloatVal.finite s num d2 := by
      unfold floatOfBits
      rw [if_neg he]
      split_ifs <;> exact ⟨_, _, _, rfl⟩
    refine ⟨(if s then "-" else "") ++
      Nat.repr (roundHalfEven (num * 1000000) (2 ^ d2) / 1000000),
      frac6 (roundHalfEven (num * 1000000) (2 ^ d2) % 1000000), ?_, rfl, ?_⟩
    · rw [hdec, hfin]
      simp [fmtFloat6, String.append_assoc]
    · simp [frac6, digitChar_mod_isDigit]
  · decide

theorem btcli_C2_witness :
    decodeValue [0xc0, 0, 0, 0, 0, 0, 0, 0] =
      fmtFloat6 (floatOfBits (beUint64 [0xc0, 0, 0, 0, 0, 0, 0, 0])) :=
  (btcli_C2.1 0xc0 0 0 0 0 0 0 0 (by decide) (by decide) (by decide) (by decide)
    (by decide) (by decide) (by decide) (by decide) (by omega)).1

/-- The documented Row Formatter fixture of `TestPrintRows`: key `"a"`,
one column `d:row` with value `"a1"` and the zero write timestamp. -/
def fixtureRow : Row :=
  { key := "a", columns := [{ family := "d", qualifier := "d:row", value := [97, 49] }] }

/-- C3: the Row Formatter writes the 40-dash separator line and then the
row key for every row, and on the documented fixture (key `"a"`, one
column `d:row` with value `"a1"` and zero version) its output matches the
documented bytes exactly. -/
theorem btcli_C3 :
    (∀ r : Row, ∃ rest,
      printRow r = String.mk (List.replicate 40 '-') ++ "\n" ++ r.key ++ "\n" ++ rest) ∧
    printRow fixtureRow =
      "----------------------------------------\na\n  d:row                                    @ 0001/01/01-00:00:00.000000\n    \"a1\"\n" :=
  ⟨fun r => ⟨String.join (r.columns.map printColumn), rfl⟩, by decide⟩

/-- C4: the line `read table prefix=a version=1` — in either argument
order — issues exactly one multi-row store call, whose range is the
prefix scan over `"a"` and whose modifier list is the latest-1-version
filter, together in that single call. -/
theorem btcli_C4 (store : Store) :
    (execLine store "read table prefix=a version=1").calls =
      [StoreCall.getRows "table" { start := "a", limit := pfxSuccessor "a" }
        [ReadOption.rowFilter (Filter.latestN 1)]] ∧
    (execLine store "read table version=1 prefix=a").calls =
      [StoreCall.getRows "table" { start := "a", limit := pfxSuccessor "a" }
        [ReadOption.rowFilter (Filter.latestN 1)]] :=
  ⟨rfl, rfl⟩

theorem btcli_C4_witness :
    (execLine emptyStore "read table prefix=a version=1").calls =
      [StoreCall.getRows "table" { start := "a", limit := pfxSuccessor "a" }
        [ReadOption.rowFilter (Filter.latestN 1)]] :=
  (btcli_C4 emptyStore).1

/-- C5 (amended): when no `prefix` argument is present — in particular
when `start` and `end` are supplied — the range builder ignores `start`
and `end` and produces the unbounded range, exactly as its unit test
`TestRowRange` asserts (`NewRange("", "")` for `start=1`, `end=2`). -/
theorem btcli_C5 (args : List (String × String)) (h : lookupArg "prefix" args = none) :
    rowRange args = { start := "", limit := "" } := by
  unfold rowRange
  rw [h]

theorem btcli_C5_witness : rowRange [("start", "1"), ("end", "2")] = { start := "", limit := "" } :=
  btcli_C5 _ (by decide)

/-- C5 counterexample: on the argument mapping `start=1, end=2` the
builder does not produce the explicit range `["1", "2")` claimed by the
spec; it produces the unbounded range. -/
theorem btcli_C5_counterexample :
    rowRange [("start", "1"), ("end", "2")] = { start := "", limit := "" } ∧
    rowRange [("start", "1"), ("end", "2")] ≠ { start := "1", limit := "2" } := by
  decide

/-- C6: any argument mapping containing `prefix` — even one that also
carries `start` and `end` — builds the range from the prefix to its
last-byte-incremented successor, and that range contains exactly the keys
having the prefix (for a nonempty prefix whose incremented last character
is still a valid character). -/
theorem btcli_C6 :
    (∀ args p, lookupArg "prefix" args = some p →
      rowRange args = { start := p, limit := pfxSuccessor p }) ∧
    (∀ p k : String, p.data ≠ [] →
      (∀ c, p.data.getLast? = some c → Nat.isValidChar (c.toNat + 1)) →
      (RowRange.containsKey { start := p, limit := pfxSuccessor p } k = true ↔
        isPfxOf p.data k.data = true)) := by
  constructor
  · intro args p h
    unfold rowRange
    rw [h]
  · intro p k hne hv
    unfold RowRange.containsKey pfxSuccessor
    rcases hd : p.data with _ | ⟨c, rest⟩
    · exact absurd hd hne
    · rw [← hd]
      have hvr : ∀ c, p.data.getLast? = some c → Nat.isValidChar (c.toNat + 1) := hv
      have hkey := chRange_eq_isPfx p.data k.data hvr (by rw [hd]; simp)
      have hemp : (succLast p.data).isEmpty = false := by
        rw [hd]; exact succLast_cons_isEmpty c rest
      simp only [String.data]
      rw [hemp, Bool.false_or, hkey]

theorem btcli_C6_witness :
    rowRange [("prefix", "a"), ("start", "x"), ("end", "y")] =
      { start := "a", limit := pfxSuccessor "a" } ∧
    (RowRange.containsKey { start := "a", limit := pfxSuccessor "a" } "abc" = true ↔
      isPfxOf "a".data "abc".data = true) :=
  ⟨btcli_C6.1 _ "a" rfl,
    btcli_C6.2 "a" "abc" (by decide) (fun c hc => by
      have h : c = 'a' := (Option.some.inj hc).symm
      rw [h]; decide)⟩

/-- C7: an argument mapping whose `count` value does not parse as a
non-negative integer makes the modifier builder fail with an
argument-parsing error; on such a `read` line the interpreter issues no
store call, writes the error to the error sink, and writes nothing to the
standard sink. -/
theorem btcli_C7 :
    (∀ args v, lookupArg "count" args = some v → parseNonNegInt v = none →
      ∃ e, readOption args = Except.error e) ∧
    (∀ store : Store, (execLine store "read table count=x").calls = [] ∧
      (execLine store "read table count=x").err = "invalid count: x\n" ∧
      (execLine store "read table count=x").out = "") := by
  constructor
  · intro args v h hp
    exact ⟨"invalid count: " ++ v, by simp [readOption, countOpt, h, hp]⟩
  · intro store
    exact ⟨rfl, rfl, rfl⟩

theorem btcli_C7_witness :
    (∃ e, readOption [("count", "x")] = Except.error e) ∧
    (execLine emptyStore "read table count=x").calls = [] :=
  ⟨btcli_C7.1 [("count", "x")] "x" rfl rfl, (btcli_C7.2 emptyStore).1⟩

/-- C8: every byte value whose length is not 8 decodes as the raw bytes
interpreted as text inside double quotes, independent of content. -/
theorem btcli_C8 (bs : List Nat) (h : bs.length ≠ 8) :
    decodeValue bs = "\"" ++ String.mk (bs.map Char.ofNat) ++ "\"" := by
  unfold decodeValue
  rw [if_neg h]
  rfl

theorem btcli_C8_witness :
    decodeValue [97, 49] = "\"" ++ String.mk ([97, 49].map Char.ofNat) ++ "\"" :=
  btcli_C8 [97, 49] (by decide)

/-- C9: a `lookup` or `read` whose store call succeeds with zero rows
writes nothing to either sink, reports no error, and does not end the
session; and the interpreter's `lookup`/`read` lines are exactly these
handlers. -/
theorem btcli_C9 :
    (∀ (store : Store) (table key : String) (bt : BigtableResult),
      store.getRow table key = Except.ok bt → bt.rows = [] →
      (doLookup store table key).out = "" ∧ (doLookup store table key).err = "" ∧
        (doLookup store table key).exit = false) ∧
    (∀ (store : Store) (table : String) (argToks : List String)
        (opts : List ReadOption) (bt : BigtableResult),
      readOption (parseArgs argToks) = Except.ok opts →
      store.getRows table (rowRange (parseArgs argToks)) opts = Except.ok bt →
      bt.rows = [] →
      (doRead store table argToks).out = "" ∧ (doRead store table argToks).err = "" ∧
        (doRead store table argToks).exit = false) ∧
    (∀ store : Store, execLine store "lookup table a" = doLookup store "table" "a" ∧
      execLine store "read table" = doRead store "table" []) := by
  refine ⟨?_, ?_, fun store => ⟨rfl, rfl⟩⟩
  · intro store table key bt h hrows
    simp [doLookup, h, hrows, String.join]
  · intro store table argToks opts bt hopts hget hrows
    simp [doRead, hopts, hget, hrows, String.join]

theorem btcli_C9_witness :
    (doLookup emptyStore "table" "a").out = "" ∧ (doRead emptyStore "table" []).out = "" :=
  ⟨(btcli_C9.1 emptyStore "table" "a" { table := "t", rows := [] } rfl rfl).1,
    (btcli_C9.2.1 emptyStore "table" [] [] { table := "t", rows := [] } rfl rfl rfl).1⟩

/-- C10: a prompt document whose text before the cursor is empty gets an
empty suggestion list from the Completer. -/
theorem btcli_C10 : Completer "" = [] :=
  rfl

end Btcli
